import Mathlib

/-!
# Verification of `fibernet` message-queue core (`src/include/mq.h`)

Shallow embedding of the two cooperating structures of the repository:

* `GlobalMQ` — the global ready-queue, a fixed-capacity ring buffer of
  mailbox references (`MQ *` pointers are modelled as abstract `Nat` ids);
* `MQ` — the per-actor mailbox, an expandable circular buffer of messages
  with a session-based locking protocol and a two-phase teardown.

Machine integers are modelled as `Nat`/`Int`.  The C++ source contains
several functions whose local variable shadows the member of the same
name and is therefore *uninitialized* (self-initialized); the
indeterminate value of such a local is modelled as an explicit extra
parameter of the embedded function, so the embedding is faithful for
every possible garbage value.  The mailbox's spinlock (`m_lock`) only
serialises the operations; since every operation is modelled as an
atomic state transformer the lock needs no representation.  A C
`assert` is modelled by returning `none` (abort); the normal result is
`some`.
-/

set_option autoImplicit false

namespace Fibernet

/-- `DEFAULT_QUEUE_SIZE` from `mq.h`. -/
def DEFAULT_QUEUE_SIZE : Nat := 64

/-- `MAX_GLOBAL_MQ` from `mq.h` (0x10000). -/
def MAX_GLOBAL_MQ : Nat := 65536

/-- `MQ_IN_GLOBAL` (the QUEUED membership state). -/
def MQ_IN_GLOBAL : Nat := 1

/-- `MQ_DISPATCHING` (the DISPATCHING membership state). -/
def MQ_DISPATCHING : Nat := 2

/-- `MQ_LOCKED` (the DISPATCHING_AND_LOCKED membership state). -/
def MQ_LOCKED : Nat := 3

/-- `GP(p) = p % MAX_GLOBAL_MQ` from `mq.h`. -/
def GP (p : Nat) : Nat := p % MAX_GLOBAL_MQ

/-- `MQ::Message`: `{uint32_t source; int session; void * data; size_t sz}`.
The payload pointer `data` is opaque to the core and modelled as a `Nat`. -/
structure Message where
  source : Nat
  session : Int
  data : Nat
  sz : Nat
  deriving Repr, DecidableEq, Inhabited

/-- Pointwise update of a message array modelled as a total function. -/
def upd (q : Nat → Message) (i : Nat) (m : Message) : Nat → Message :=
  fun j => if j = i then m else q j

/-- Pointwise update of a boolean array modelled as a total function. -/
def updB (f : Nat → Bool) (i : Nat) (b : Bool) : Nat → Bool :=
  fun j => if j = i then b else f j

/-- Pointwise update of a reference array modelled as a total function. -/
def updR (f : Nat → Nat) (i : Nat) (r : Nat) : Nat → Nat :=
  fun j => if j = i then r else f j

/-- The state of the singleton `GlobalMQ`: two `uint32_t` counters and two
arrays of size `MAX_GLOBAL_MQ` (mailbox references and readiness flags),
both modelled as total functions indexed by slot. -/
structure GlobalMQ where
  head : Nat
  tail : Nat
  queue : Nat → Nat
  flag : Nat → Bool

/-- `GlobalMQ::GlobalMQ()`: both counters 0, all flags cleared.  The
reference array is left uninitialized by the constructor; unwritten slots
are modelled as holding the null reference `0`. -/
def GlobalMQ.init : GlobalMQ :=
  { head := 0, tail := 0, queue := fun _ => 0, flag := fun _ => false }

/-- `GlobalMQ::pop`.  The source reads

    uint32_t head = head;

which declares a local `head` initialized from *itself* (the member is
shadowed), so the local holds an indeterminate value — modelled by the
extra parameter `hLocal`.  The subsequent
`__sync_bool_compare_and_swap(&head, head, head+1)` also targets this
local: comparing the local against its own value always succeeds and the
*member* `head` is never read nor written by `pop`.  The emptiness test
compares `GP(local)` against `GP(tail)` (the member `tail`). -/
def GlobalMQ.pop (g : GlobalMQ) (hLocal : Nat) : Option Nat × GlobalMQ :=
  let head_ptr := GP hLocal
  if head_ptr = GP g.tail then
    (none, g)
  else if g.flag head_ptr = false then
    (none, g)
  else
    -- the CAS on the local always succeeds; the member head is untouched
    (some (g.queue head_ptr), { g with flag := updB g.flag head_ptr false })

/-- `GlobalMQ::push`.  The source reads

    uint32_t tail = GP(__sync_fetch_and_add(&tail,1));

where `&tail` inside the initializer already refers to the local being
declared, which is uninitialized — modelled by the extra parameter
`tLocal`.  The fetch-and-add increments the local (the increment is then
overwritten by the initializer's result `GP(tLocal)`); the member `tail`
is never touched.  The reference and the readiness flag are written at
slot `GP(tLocal)`. -/
def GlobalMQ.push (g : GlobalMQ) (mq : Nat) (tLocal : Nat) : GlobalMQ :=
  let t := GP tLocal
  { g with queue := updR g.queue t mq, flag := updB g.flag t true }

/-- Number of logical slots of the ready-queue window `[head, tail)`
currently holding a reference to mailbox `r`. -/
def GlobalMQ.refCount (g : GlobalMQ) (r : Nat) : Nat :=
  ((List.range (g.tail - g.head)).filter (fun k => g.queue (GP (g.head + k)) = r)).length

/-- The state of a mailbox (`class MQ`).  `queue` models the heap array
`Message *queue` as a total function; slots outside the live window hold
indeterminate values.  The spinlock field `m_lock` is not represented
(operations are modelled as atomic). -/
structure MQ where
  m_handle : Nat
  cap : Nat
  head : Nat
  tail : Nat
  m_release : Nat
  lock_session : Int
  in_global : Nat
  queue : Nat → Message

/-- `MQ::MQ(handle)` generalised over the initial capacity: the source
constructor fixes `cap = DEFAULT_QUEUE_SIZE`; the generalisation is used
to state the "capacity large enough that no expansion is needed"
comparison.  `new Message[cap]` default-initializes the array, so slots
hold indeterminate values, modelled as `default`. -/
def MQ.mkCap (c : Nat) (handle : Nat) : MQ :=
  { m_handle := handle, cap := c, head := 0, tail := 0,
    m_release := 0, lock_session := 0, in_global := MQ_IN_GLOBAL,
    queue := fun _ => default }

/-- `MQ::MQ(handle)` exactly as in the source (`cap = DEFAULT_QUEUE_SIZE`). -/
def MQ.mk' (handle : Nat) : MQ :=
  MQ.mkCap DEFAULT_QUEUE_SIZE handle

/-- `MQ::expand()`: allocate a buffer of twice the capacity, copy the `cap`
messages starting at the logical head into positions `0..cap-1`, reset
`head := 0`, `tail := cap` (old capacity), double `cap`.  Slots at and
beyond the old capacity in the new buffer are default-initialized
(indeterminate), modelled as `default`. -/
def MQ.expand (st : MQ) : MQ :=
  { st with
    cap := st.cap * 2,
    head := 0,
    tail := st.cap,
    queue := fun i => if i < st.cap then st.queue ((st.head + i) % st.cap) else default }

/-- `MQ::pop(Message *)`: if `head != tail`, copy out `queue[head]`,
advance `head` (wrapping to 0 when `++head >= cap`), and clear
`in_global`; otherwise return nothing and change nothing.  Returns the
popped message (if any) and the post-state. -/
def MQ.pop (st : MQ) : Option Message × MQ :=
  if st.head ≠ st.tail then
    let m := st.queue st.head
    let h' := if st.head + 1 ≥ st.cap then 0 else st.head + 1
    (some m, { st with head := h', in_global := 0 })
  else
    (none, st)

/-- `MQ::pushhead(const Message *)`.  The source reads

    int head = head - 1;

declaring a local `head` initialized from itself minus one; the local's
starting garbage is the parameter `hGar`.  After the wrap / collision
adjustments the message is written at the local index, and the line
`head = head;` assigns the local to itself — the member `head` is never
updated.  If `in_global == MQ_LOCKED` the mailbox pushes itself into the
global queue (the returned `Bool` records that `GlobalMQ::push(this)`
was invoked) and becomes `MQ_IN_GLOBAL`; otherwise `in_global` must be
`MQ_DISPATCHING` (assert, modelled as `none`).  `lock_session` is
cleared at the end. -/
def MQ.pushhead (st : MQ) (msg : Message) (hGar : Int) : Option (MQ × Bool) :=
  let h1 : Int := hGar - 1
  let h2 : Int := if h1 < 0 then (st.cap : Int) - 1 else h1
  let stw :=
    if h2 = (st.tail : Int) then
      let e := st.expand
      let e2 := { e with tail := e.tail - 1 }
      { e2 with queue := upd e2.queue (((e2.cap : Int) - 1).toNat) msg }
    else
      { st with queue := upd st.queue h2.toNat msg }
  -- `head = head;` : the member head is unchanged
  if stw.in_global = MQ_LOCKED then
    some ({ stw with in_global := MQ_IN_GLOBAL, lock_session := 0 }, true)
  else if stw.in_global = MQ_DISPATCHING then
    some ({ stw with lock_session := 0 }, false)
  else
    none

/-- `MQ::push(const Message *)`.  If a lock session is active and the
message's session matches, delegate to `pushhead` (which needs the
garbage value `hGar` of its uninitialized local).  Otherwise append at
`tail` (wrapping when `++tail >= cap`), expand when this makes
`head == tail`, and — when unlocked and `in_global == 0` — set
`in_global := MQ_IN_GLOBAL` and push the mailbox into the global queue
(recorded by the returned `Bool`). -/
def MQ.push (st : MQ) (msg : Message) (hGar : Int) : Option (MQ × Bool) :=
  if st.lock_session ≠ 0 ∧ msg.session = st.lock_session then
    st.pushhead msg hGar
  else
    let st1 := { st with queue := upd st.queue st.tail msg }
    let t1 := if st1.tail + 1 ≥ st1.cap then 0 else st1.tail + 1
    let st2 := { st1 with tail := t1 }
    let st3 := if st2.head = st2.tail then st2.expand else st2
    if st3.lock_session = 0 ∧ st3.in_global = 0 then
      some ({ st3 with in_global := MQ_IN_GLOBAL }, true)
    else
      some (st3, false)

/-- `MQ::pushglobal()`: assert `in_global != 0` (modelled as `none`);
if `in_global == MQ_DISPATCHING` demote to `MQ_LOCKED`; then, if no lock
session is pending, push the mailbox into the global queue (recorded by
the returned `Bool`) and set `in_global := MQ_IN_GLOBAL`. -/
def MQ.pushglobal (st : MQ) : Option (MQ × Bool) :=
  if st.in_global = 0 then
    none
  else
    let st1 := if st.in_global = MQ_DISPATCHING then { st with in_global := MQ_LOCKED } else st
    if st1.lock_session = 0 then
      some ({ st1 with in_global := MQ_IN_GLOBAL }, true)
    else
      some (st1, false)

/-- `MQ::lock(int session)`: assert `lock_session == 0` and
`in_global == MQ_IN_GLOBAL` (modelled as `none`); then set
`in_global := MQ_DISPATCHING` and record the session. -/
def MQ.lock (st : MQ) (session : Int) : Option MQ :=
  if st.lock_session = 0 ∧ st.in_global = MQ_IN_GLOBAL then
    some { st with in_global := MQ_DISPATCHING, lock_session := session }
  else
    none

/-- `MQ::mark_release()`: assert `m_release == 0` (modelled as `none`);
then set the sticky flag. -/
def MQ.mark_release (st : MQ) : Option MQ :=
  if st.m_release = 0 then
    some { st with m_release := 1 }
  else
    none

/-- `MQ::drop_queue()`.  The source loop is

    while(!pop(&msg)) { ++s; ... }

i.e. the body runs only when `pop` *failed*.  On a non-empty mailbox the
first `pop` succeeds, the loop exits immediately and `s = 0` is returned
(the popped message is discarded without being dispatched or freed).  On
an empty mailbox `pop` fails without changing the state, so the loop
repeats forever on unchanged state: modelled as `none` (divergence). -/
def MQ.drop_queue (st : MQ) : Option Nat :=
  match st.pop with
  | (some _, _) => some 0
  | (none, _) => none

/-- `MQ::release()`: if `m_release` is set, run `drop_queue` (which
deletes the mailbox) and return its count; otherwise push the mailbox
into the global queue (recorded by the `Bool`) and return 0.  `none`
means `drop_queue` diverged. -/
def MQ.release (st : MQ) : Option (Nat × Bool) :=
  if st.m_release ≠ 0 then
    (st.drop_queue).map (fun s => (s, false))
  else
    some (0, true)

/-! ## Abstraction: the logical content of a mailbox -/

/-- Structural invariant of a mailbox buffer: positive capacity and
cursors inside the buffer. -/
def MQ.Inv (st : MQ) : Prop :=
  0 < st.cap ∧ st.head < st.cap ∧ st.tail < st.cap

instance (st : MQ) : Decidable st.Inv := by
  unfold MQ.Inv; infer_instance

/-- Number of messages logically stored in the mailbox
(`(tail + cap - head) % cap`; `head = tail` means empty). -/
def MQ.len (st : MQ) : Nat :=
  (st.tail + st.cap - st.head) % st.cap

/-- The logical content of the mailbox, read from the head forward. -/
def MQ.toList (st : MQ) : List Message :=
  (List.range st.len).map (fun i => st.queue ((st.head + i) % st.cap))

/-- Push a list of messages in order (garbage parameter 0 for the
`pushhead` locals, which are never reached when no lock session is
active); also count how many `GlobalMQ::push` invocations occurred. -/
def MQ.pushList : List Message → MQ → Option (MQ × Nat)
  | [], st => some (st, 0)
  | m :: ms, st =>
    match st.push m 0 with
    | none => none
    | some (st', b) =>
      match MQ.pushList ms st' with
      | none => none
      | some (st'', n) => some (st'', (if b then 1 else 0) + n)

/-- Pop up to `n` messages, collecting them in order. -/
def MQ.popAll : Nat → MQ → List Message
  | 0, _ => []
  | n + 1, st =>
    match st.pop with
    | (none, _) => []
    | (some m, st') => m :: MQ.popAll n st'

/-- Push all of `ms` into a fresh mailbox of capacity `c` with handle
`hdl`, then pop them all back. -/
def runPushPop (ms : List Message) (c : Nat) (hdl : Nat) : Option (List Message) :=
  (MQ.pushList ms (MQ.mkCap c hdl)).map (fun p => MQ.popAll ms.length p.1)


/-! ## Concrete states used by individual claims -/

/-- A sample ordinary message. -/
def msgA : Message := ⟨1, 1, 100, 10⟩

/-- A second sample ordinary message. -/
def msgB2 : Message := ⟨1, 2, 101, 11⟩

/-- A third sample ordinary message. -/
def msgC3m : Message := ⟨1, 3, 102, 12⟩

/-- A reply message carrying lock session 7. -/
def msgReply7 : Message := ⟨2, 7, 200, 20⟩

/-- Ready queue holding exactly one reference (42) at slot 0:
`head = 0`, `tail = 1`, slot 0 written and ready. -/
def gqOne : GlobalMQ :=
  { head := 0, tail := 1, queue := updR (fun _ => 0) 0 42,
    flag := updB (fun _ => false) 0 true }

/-- Mailbox in the middle of a locked dispatch: one ordinary queued
message (`msgA` at slot 0), `head = 0`, `tail = 1`, lock session 7,
membership `MQ_DISPATCHING` (the state right after `lock(7)` and before
the reply arrives). -/
def stLocked7 : MQ :=
  { m_handle := 5, cap := 64, head := 0, tail := 1, m_release := 0,
    lock_session := 7, in_global := MQ_DISPATCHING,
    queue := upd (fun _ => default) 0 msgA }

/-- Mailbox marked for release holding two messages
(`msgA` at slot 0, `msgB2` at slot 1). -/
def stMarked2 : MQ :=
  { m_handle := 5, cap := 64, head := 0, tail := 2, m_release := 1,
    lock_session := 0, in_global := MQ_IN_GLOBAL,
    queue := upd (upd (fun _ => default) 0 msgA) 1 msgB2 }

/-- Mailbox marked for release holding no message. -/
def stMarked0 : MQ :=
  { stMarked2 with tail := 0 }

/-! ## Claims settled on concrete inputs (defects in the source) -/

/-- Claim C1, counterexample: at the very state the constructor
establishes (a fresh mailbox with handle 7, alongside the freshly
constructed ready queue), the membership state is `MQ_IN_GLOBAL`
(QUEUED) yet no reference to the mailbox is present in the ready
queue, so the claimed "QUEUED iff present" equivalence does not hold at
construction. -/
theorem C1_counterexample :
    ¬ ((MQ.mk' 7).in_global = MQ_IN_GLOBAL ↔ 0 < GlobalMQ.refCount GlobalMQ.init 7) := by
  decide

/-- Claim C2 (code defect): `GlobalMQ::pop` declares `uint32_t head = head;`,
a self-initialized local shadowing the member, and its CAS targets that
local (always succeeding).  Consequently the shared head counter is
never advanced by any `pop`, successful or not (first conjunct), and on
the concrete one-element queue `gqOne` a successful pop returns the
reference 42 and clears the slot's readiness flag while leaving the
shared head counter at 0 — a second pop seeing the same garbage local
would reread slot 0. -/
theorem C2_head_never_advanced :
    (∀ (g : GlobalMQ) (hLocal : Nat), ((g.pop hLocal).2).head = g.head) ∧
    (gqOne.pop 0).1 = some 42 ∧
    ((gqOne.pop 0).2).head = 0 ∧
    ((gqOne.pop 0).2).flag 0 = false := by
  refine ⟨?_, by decide, by decide, by decide⟩
  intro g hLocal
  unfold GlobalMQ.pop
  dsimp only
  split
  · rfl
  · split
    · rfl
    · rfl

/-- Claim C5 (code defect): `GlobalMQ::push` declares
`uint32_t tail = GP(__sync_fetch_and_add(&tail,1));` where `&tail`
already denotes the uninitialized local being declared, so the
fetch-and-add increments garbage and the shared tail counter never
moves (first conjunct).  Concretely, pushing reference 7 into the fresh
queue with the garbage local holding 3 leaves the shared tail at 0 and
deposits the reference (with its readiness flag) at the indeterminate
slot 3, outside the logical window. -/
theorem C5_tail_never_advanced :
    (∀ (g : GlobalMQ) (mq tLocal : Nat), (g.push mq tLocal).tail = g.tail) ∧
    (GlobalMQ.push GlobalMQ.init 7 3).tail = 0 ∧
    (GlobalMQ.push GlobalMQ.init 7 3).queue 3 = 7 ∧
    (GlobalMQ.push GlobalMQ.init 7 3).flag 3 = true ∧
    GlobalMQ.refCount (GlobalMQ.push GlobalMQ.init 7 3) 7 = 0 := by
  exact ⟨fun g mq t => rfl, by decide, by decide, by decide, by decide⟩

/-- Claim C3 (code defect): `MQ::pushhead` declares `int head = head - 1;`
(local shadowing the member, self-initialized) and later executes
`head = head;`, so the member head cursor is never moved and the reply
is written at an index derived from garbage.  Concretely, on `stLocked7`
(lock session 7 active, one ordinary message `msgA` queued) pushing the
matching reply `msgReply7` with the garbage local holding 0 leaves the
head cursor at 0, stores the reply at the dead slot 63, and the next
`pop` still returns `msgA`, not the reply; only the clearing of the lock
session happens as specified. -/
theorem C3_priority_insert_lost :
    (MQ.push stLocked7 msgReply7 0).map
      (fun p => (p.1.head, p.1.lock_session, (p.1.pop).1, p.2))
      = some (0, 0, some msgA, false) ∧
    msgA ≠ msgReply7 ∧
    stLocked7.lock_session = 7 ∧ msgReply7.session = 7 ∧ stLocked7.head = 0 := by
  refine ⟨by decide, by decide, by decide, by decide, by decide⟩

/-- Claim C4 (code defect): the drain loop of `MQ::drop_queue` is
`while(!pop(&msg)) { ... }`, whose body runs only when `pop` *failed*.
On the marked two-message mailbox `stMarked2` the first `pop` succeeds,
so `release()` returns a drained count of 0 (and the popped message is
neither dispatched nor freed) although two messages were present; on the
marked empty mailbox `stMarked0` the loop never terminates (modelled as
`none`). -/
theorem C4_drop_count_zero :
    MQ.release stMarked2 = some (0, false) ∧
    (stMarked2.toList).length = 2 ∧
    stMarked2.m_release = 1 ∧
    MQ.release stMarked0 = none := by
  refine ⟨by decide, by decide, by decide, by decide⟩

/-! ## Mailbox operation specifications -/

/-- Claim C7: on a non-empty mailbox (`head != tail`), `MQ::pop` returns
the head message, advances the head cursor by one with circular
wraparound at the capacity, clears membership to `0` (NOT_QUEUED) and
leaves every other field unchanged; on an empty mailbox (`head == tail`)
it returns nothing and leaves the whole state unchanged. -/
theorem C7_pop_spec (st : MQ) (hc : st.head < st.cap) :
    (st.head ≠ st.tail →
      (st.pop).1 = some (st.queue st.head) ∧
      ((st.pop).2).head = (st.head + 1) % st.cap ∧
      ((st.pop).2).in_global = 0 ∧
      ((st.pop).2).tail = st.tail ∧
      ((st.pop).2).cap = st.cap ∧
      ((st.pop).2).queue = st.queue ∧
      ((st.pop).2).lock_session = st.lock_session ∧
      ((st.pop).2).m_release = st.m_release ∧
      ((st.pop).2).m_handle = st.m_handle) ∧
    (st.head = st.tail → st.pop = (none, st)) := by
  constructor
  · intro hne
    have hmod : (if st.head + 1 ≥ st.cap then 0 else st.head + 1) = (st.head + 1) % st.cap := by
      split
      · have h1 : st.head + 1 = st.cap := by omega
        rw [h1, Nat.mod_self]
      · rw [Nat.mod_eq_of_lt (by omega)]
    unfold MQ.pop
    rw [if_pos hne]
    exact ⟨rfl, hmod, rfl, rfl, rfl, rfl, rfl, rfl, rfl⟩
  · intro heq
    unfold MQ.pop
    rw [if_neg (by omega)]

/-- Claim C7 witness: concrete application on `stLocked7`
(non-empty, head 0, capacity 64). -/
theorem C7_pop_witness :
    (stLocked7.pop).1 = some (stLocked7.queue stLocked7.head) ∧
    ((stLocked7.pop).2).head = (stLocked7.head + 1) % stLocked7.cap ∧
    ((stLocked7.pop).2).in_global = 0 :=
  ⟨((C7_pop_spec stLocked7 (by decide)).1 (by decide)).1,
   ((C7_pop_spec stLocked7 (by decide)).1 (by decide)).2.1,
   ((C7_pop_spec stLocked7 (by decide)).1 (by decide)).2.2.1⟩

/-- Claim C8: on a mailbox with nonzero membership, `MQ::pushglobal`
succeeds (no assertion failure) and: it pushes the mailbox into the
ready queue with membership ending at QUEUED exactly when no lock
session is pending; when a lock session is nonzero nothing is pushed
(re-announcement deferred) and a mailbox found in `MQ_DISPATCHING` is
changed to `MQ_LOCKED` (DISPATCHING_AND_LOCKED) while any other nonzero
membership is left as it was. -/
theorem C8_pushglobal_spec (st : MQ) (hg : st.in_global ≠ 0) :
    ∃ st' b, st.pushglobal = some (st', b) ∧
      ((b = true ∧ st'.in_global = MQ_IN_GLOBAL) ↔ st.lock_session = 0) ∧
      (st.lock_session ≠ 0 → b = false ∧
        st'.in_global = (if st.in_global = MQ_DISPATCHING then MQ_LOCKED else st.in_global)) := by
  unfold MQ.pushglobal
  rw [if_neg hg]
  by_cases hd : st.in_global = MQ_DISPATCHING <;>
    by_cases hl : st.lock_session = 0 <;>
      simp only [hd, hl, if_pos, if_neg, if_true, if_false] <;>
        simp [hl, hd, MQ_LOCKED, MQ_IN_GLOBAL]

/-- Claim C8 witness: concrete application on the locked dispatching
state `stLocked7` (membership `MQ_DISPATCHING`, lock session 7): nothing
is pushed and membership moves to `MQ_LOCKED`. -/
theorem C8_pushglobal_witness :
    ∃ st' b, stLocked7.pushglobal = some (st', b) ∧
      ((b = true ∧ st'.in_global = MQ_IN_GLOBAL) ↔ stLocked7.lock_session = 0) ∧
      (stLocked7.lock_session ≠ 0 → b = false ∧
        st'.in_global =
          (if stLocked7.in_global = MQ_DISPATCHING then MQ_LOCKED else stLocked7.in_global)) :=
  C8_pushglobal_spec stLocked7 (by decide)

/-- Claim C9: `MQ::lock(session)` requires `lock_session == 0` and
membership QUEUED (`MQ_IN_GLOBAL`); under that precondition it succeeds,
setting membership to `MQ_DISPATCHING` and recording the session; in
every other state it is an assertion failure (modelled `none`), never a
silently-ignored no-op. -/
theorem C9_lock_spec (st : MQ) (s : Int) :
    (st.lock_session = 0 ∧ st.in_global = MQ_IN_GLOBAL →
      st.lock s = some { st with in_global := MQ_DISPATCHING, lock_session := s }) ∧
    (¬(st.lock_session = 0 ∧ st.in_global = MQ_IN_GLOBAL) → st.lock s = none) := by
  constructor
  · intro h
    unfold MQ.lock
    rw [if_pos h]
  · intro h
    unfold MQ.lock
    rw [if_neg h]

/-- Claim C9 witness: locking a fresh mailbox with session 7 succeeds
and moves it to `MQ_DISPATCHING`; locking the resulting state again is
an assertion failure. -/
theorem C9_lock_witness :
    MQ.lock (MQ.mk' 3) 7
      = some { MQ.mk' 3 with in_global := MQ_DISPATCHING, lock_session := 7 } ∧
    MQ.lock { MQ.mk' 3 with in_global := MQ_DISPATCHING, lock_session := 7 } 9 = none :=
  ⟨(C9_lock_spec (MQ.mk' 3) 7).1 (by exact ⟨rfl, rfl⟩),
   (C9_lock_spec { MQ.mk' 3 with in_global := MQ_DISPATCHING, lock_session := 7 } 9).2
     (by intro h; exact absurd h.1 (by decide))⟩

/-! ## Ring-buffer abstraction lemmas and the remaining claims -/

theorem mod_sub_eq (c h t : Nat) (hh : h < c) (ht : t < c) :
    (t + c - h) % c = if h ≤ t then t - h else t + c - h := by
  split
  · rename_i hle
    have h1 : t + c - h = (t - h) + c := by omega
    rw [h1, Nat.add_mod_right, Nat.mod_eq_of_lt (by omega)]
  · rw [Nat.mod_eq_of_lt (by omega)]

theorem add_mod_inj (c h i j : Nat) (hi : i < c) (hj : j < c)
    (heq : (h + i) % c = (h + j) % c) : i = j := by
  have h1 : i % c = j % c := Nat.ModEq.add_left_cancel' h heq
  rwa [Nat.mod_eq_of_lt hi, Nat.mod_eq_of_lt hj] at h1

theorem len_lt (st : MQ) (hInv : st.Inv) : st.len < st.cap :=
  Nat.mod_lt _ hInv.1

theorem len_eq (st : MQ) (hInv : st.Inv) :
    st.len = if st.head ≤ st.tail then st.tail - st.head else st.tail + st.cap - st.head :=
  mod_sub_eq st.cap st.head st.tail hInv.2.1 hInv.2.2

theorem offset_len (st : MQ) (hInv : st.Inv) :
    (st.head + st.len) % st.cap = st.tail := by
  rw [len_eq st hInv]
  obtain ⟨hc, hh, ht⟩ := hInv
  split
  · have h1 : st.head + (st.tail - st.head) = st.tail := by omega
    rw [h1, Nat.mod_eq_of_lt ht]
  · have h1 : st.head + (st.tail + st.cap - st.head) = st.tail + st.cap := by omega
    rw [h1, Nat.add_mod_right, Nat.mod_eq_of_lt ht]

theorem offset_ne (st : MQ) (hInv : st.Inv) (i : Nat) (hi : i < st.len) :
    (st.head + i) % st.cap ≠ st.tail := by
  intro h
  have h2 : (st.head + i) % st.cap = (st.head + st.len) % st.cap := by
    rw [h, offset_len st hInv]
  have h3 : i = st.len :=
    add_mod_inj st.cap st.head i st.len
      (lt_trans hi (len_lt st hInv)) (len_lt st hInv) h2
  omega

theorem window_snoc (st : MQ) (m : Message) (hInv : st.Inv) :
    (List.range (st.len + 1)).map (fun i => upd st.queue st.tail m ((st.head + i) % st.cap))
      = st.toList ++ [m] := by
  rw [List.range_succ, List.map_append]
  congr 1
  · unfold MQ.toList
    apply List.map_congr_left
    intro i hi
    have hi' : i < st.len := List.mem_range.mp hi
    unfold upd
    rw [if_neg (offset_ne st hInv i hi')]
  · simp only [List.map_cons, List.map_nil]
    rw [offset_len st hInv]
    unfold upd
    simp

theorem cap_iff (c h t L : Nat) (hc : 0 < c) (hh : h < c) (ht : t < c)
    (hL : L = if h ≤ t then t - h else t + c - h) :
    (h = (if t + 1 ≥ c then 0 else t + 1)) ↔ L + 1 = c := by
  split_ifs at * <;> omega

theorem stepA_len (c h t L : Nat) (hh : h < c) (ht : t < c)
    (hL : L = if h ≤ t then t - h else t + c - h) (hne : L + 1 ≠ c) :
    ((if t + 1 ≥ c then 0 else t + 1) + c - h) % c = L + 1 := by
  have h1 : (if t + 1 ≥ c then 0 else t + 1) < c := by split <;> omega
  rw [mod_sub_eq c h _ hh h1]
  split_ifs at * <;> omega

theorem appendA_facts (st : MQ) (m : Message) (hInv : st.Inv) (hne : st.len + 1 ≠ st.cap) :
    (({ st with queue := upd st.queue st.tail m, tail := (if st.tail + 1 ≥ st.cap then 0 else st.tail + 1) } : MQ)).Inv ∧
    (({ st with queue := upd st.queue st.tail m, tail := (if st.tail + 1 ≥ st.cap then 0 else st.tail + 1) } : MQ)).toList = st.toList ++ [m] ∧
    (({ st with queue := upd st.queue st.tail m, tail := (if st.tail + 1 ≥ st.cap then 0 else st.tail + 1) } : MQ)).len = st.len + 1 ∧
    (({ st with queue := upd st.queue st.tail m, tail := (if st.tail + 1 ≥ st.cap then 0 else st.tail + 1) } : MQ)).cap = st.cap := by
  obtain ⟨hc, hh, ht⟩ := hInv
  have hInv' : st.Inv := ⟨hc, hh, ht⟩
  have ht1lt : (if st.tail + 1 ≥ st.cap then 0 else st.tail + 1) < st.cap := by
    split <;> omega
  have hlenA : (({ st with queue := upd st.queue st.tail m, tail := (if st.tail + 1 ≥ st.cap then 0 else st.tail + 1) } : MQ)).len = st.len + 1 :=
    stepA_len st.cap st.head st.tail st.len hh ht (len_eq st hInv') hne
  refine ⟨⟨hc, hh, ht1lt⟩, ?_, hlenA, rfl⟩
  unfold MQ.toList
  rw [hlenA]
  exact window_snoc st m hInv'

theorem appendB_facts (st : MQ) (m : Message) (hInv : st.Inv) (hcol : st.len + 1 = st.cap) :
    ((({ st with queue := upd st.queue st.tail m, tail := (if st.tail + 1 ≥ st.cap then 0 else st.tail + 1) } : MQ)).expand).Inv ∧
    ((({ st with queue := upd st.queue st.tail m, tail := (if st.tail + 1 ≥ st.cap then 0 else st.tail + 1) } : MQ)).expand).toList = st.toList ++ [m] ∧
    ((({ st with queue := upd st.queue st.tail m, tail := (if st.tail + 1 ≥ st.cap then 0 else st.tail + 1) } : MQ)).expand).len = st.len + 1 ∧
    ((({ st with queue := upd st.queue st.tail m, tail := (if st.tail + 1 ≥ st.cap then 0 else st.tail + 1) } : MQ)).expand).cap = st.cap * 2 := by
  obtain ⟨hc, hh, ht⟩ := hInv
  have hInv' : st.Inv := ⟨hc, hh, ht⟩
  have hlenB : ((({ st with queue := upd st.queue st.tail m, tail := (if st.tail + 1 ≥ st.cap then 0 else st.tail + 1) } : MQ)).expand).len = st.len + 1 := by
    show (st.cap + st.cap * 2 - 0) % (st.cap * 2) = st.len + 1
    have e1 : st.cap + st.cap * 2 - 0 = st.cap + st.cap * 2 := by omega
    rw [e1, Nat.add_mod_right, Nat.mod_eq_of_lt (by omega)]
    omega
  refine ⟨⟨?_, ?_, ?_⟩, ?_, hlenB, rfl⟩
  · show 0 < st.cap * 2
    omega
  · show (0 : Nat) < st.cap * 2
    omega
  · show st.cap < st.cap * 2
    omega
  · unfold MQ.toList
    rw [hlenB]
    refine (List.map_congr_left ?_).trans (window_snoc st m hInv')
    intro i hi
    have hi' : i < st.len + 1 := List.mem_range.mp hi
    have hilt : i < st.cap := by omega
    show (if (0 + i) % (st.cap * 2) < st.cap then upd st.queue st.tail m ((st.head + (0 + i) % (st.cap * 2)) % st.cap) else default) = upd st.queue st.tail m ((st.head + i) % st.cap)
    rw [Nat.zero_add, Nat.mod_eq_of_lt (show i < st.cap * 2 by omega), if_pos hilt]

theorem push_branchA (st : MQ) (m : Message) (g : Int) (hl : st.lock_session = 0)
    (hne : st.head ≠ (if st.tail + 1 ≥ st.cap then 0 else st.tail + 1)) :
    st.push m g =
      (if st.in_global = 0 then
        some (({ st with queue := upd st.queue st.tail m, tail := (if st.tail + 1 ≥ st.cap then 0 else st.tail + 1), in_global := MQ_IN_GLOBAL } : MQ), true)
      else
        some (({ st with queue := upd st.queue st.tail m, tail := (if st.tail + 1 ≥ st.cap then 0 else st.tail + 1) } : MQ), false)) := by
  unfold MQ.push
  rw [if_neg (by simp [hl])]
  dsimp only
  rw [if_neg hne]
  by_cases hg : st.in_global = 0
  · rw [if_pos (by exact ⟨hl, hg⟩), if_pos hg]
  · rw [if_neg (by simp [hg]), if_neg hg]

theorem push_branchB (st : MQ) (m : Message) (g : Int) (hl : st.lock_session = 0)
    (heq : st.head = (if st.tail + 1 ≥ st.cap then 0 else st.tail + 1)) :
    st.push m g =
      (if st.in_global = 0 then
        some (({ (({ st with queue := upd st.queue st.tail m, tail := (if st.tail + 1 ≥ st.cap then 0 else st.tail + 1) } : MQ)).expand with in_global := MQ_IN_GLOBAL } : MQ), true)
      else
        some ((({ st with queue := upd st.queue st.tail m, tail := (if st.tail + 1 ≥ st.cap then 0 else st.tail + 1) } : MQ)).expand, false)) := by
  unfold MQ.push
  rw [if_neg (by simp [hl])]
  dsimp only
  rw [if_pos heq]
  by_cases hg : st.in_global = 0
  · rw [if_pos (by exact ⟨hl, hg⟩), if_pos hg]
  · rw [if_neg (by simp [MQ.expand, hg]), if_neg hg]

theorem push_spec (st : MQ) (m : Message) (g : Int) (hInv : st.Inv) (hl : st.lock_session = 0) :
    ∃ st' b, st.push m g = some (st', b) ∧ st'.Inv ∧
      st'.toList = st.toList ++ [m] ∧
      st'.len = st.len + 1 ∧
      st'.lock_session = 0 ∧
      st'.in_global = (if st.in_global = 0 then MQ_IN_GLOBAL else st.in_global) ∧
      (b = true ↔ st.in_global = 0) ∧
      st'.cap = (if st.len + 1 = st.cap then st.cap * 2 else st.cap) ∧
      st'.m_release = st.m_release ∧ st'.m_handle = st.m_handle := by
  obtain ⟨hc, hh, ht⟩ := hInv
  have hInv' : st.Inv := ⟨hc, hh, ht⟩
  by_cases hcol : st.len + 1 = st.cap
  · have heq : st.head = (if st.tail + 1 ≥ st.cap then 0 else st.tail + 1) :=
      (cap_iff st.cap st.head st.tail st.len hc hh ht (len_eq st hInv')).mpr hcol
    obtain ⟨hI, hT, hL, hC⟩ := appendB_facts st m hInv' hcol
    by_cases hg : st.in_global = 0
    · refine ⟨_, true, (push_branchB st m g hl heq).trans (if_pos hg), hI, hT, hL, hl, ?_, by simp [hg], ?_, rfl, rfl⟩
      · show MQ_IN_GLOBAL = (if st.in_global = 0 then MQ_IN_GLOBAL else st.in_global)
        rw [if_pos hg]
      · show st.cap * 2 = (if st.len + 1 = st.cap then st.cap * 2 else st.cap)
        rw [if_pos hcol]
    · refine ⟨_, false, (push_branchB st m g hl heq).trans (if_neg hg), hI, hT, hL, hl, ?_, by simp [hg], ?_, rfl, rfl⟩
      · show st.in_global = (if st.in_global = 0 then MQ_IN_GLOBAL else st.in_global)
        rw [if_neg hg]
      · show st.cap * 2 = (if st.len + 1 = st.cap then st.cap * 2 else st.cap)
        rw [if_pos hcol]
  · have hne : st.head ≠ (if st.tail + 1 ≥ st.cap then 0 else st.tail + 1) := by
      intro hx
      exact hcol ((cap_iff st.cap st.head st.tail st.len hc hh ht (len_eq st hInv')).mp hx)
    obtain ⟨hI, hT, hL, hC⟩ := appendA_facts st m hInv' hcol
    by_cases hg : st.in_global = 0
    · refine ⟨_, true, (push_branchA st m g hl hne).trans (if_pos hg), hI, hT, hL, hl, ?_, by simp [hg], ?_, rfl, rfl⟩
      · show MQ_IN_GLOBAL = (if st.in_global = 0 then MQ_IN_GLOBAL else st.in_global)
        rw [if_pos hg]
      · show st.cap = (if st.len + 1 = st.cap then st.cap * 2 else st.cap)
        rw [if_neg hcol]
    · refine ⟨_, false, (push_branchA st m g hl hne).trans (if_neg hg), hI, hT, hL, hl, ?_, by simp [hg], ?_, rfl, rfl⟩
      · show st.in_global = (if st.in_global = 0 then MQ_IN_GLOBAL else st.in_global)
        rw [if_neg hg]
      · show st.cap = (if st.len + 1 = st.cap then st.cap * 2 else st.cap)
        rw [if_neg hcol]

theorem len_zero_iff (st : MQ) (hInv : st.Inv) : st.len = 0 ↔ st.head = st.tail := by
  rw [len_eq st hInv]
  obtain ⟨hc, hh, ht⟩ := hInv
  split_ifs <;> omega

theorem stepP_len (c h t L : Nat) (hh : h < c) (ht : t < c)
    (hL : L = if h ≤ t then t - h else t + c - h) (hne : L ≠ 0) :
    (t + c - (if h + 1 ≥ c then 0 else h + 1)) % c = L - 1 := by
  have h1 : (if h + 1 ≥ c then 0 else h + 1) < c := by split <;> omega
  rw [mod_sub_eq c _ t h1 ht]
  split_ifs at * <;> omega

theorem head_step_mod (c h : Nat) (hh : h < c) (i : Nat) :
    ((if h + 1 ≥ c then 0 else h + 1) + i) % c = (h + (i + 1)) % c := by
  have hmm : (if h + 1 ≥ c then 0 else h + 1) % c = (h + 1) % c := by
    split
    · have hx : h + 1 = c := by omega
      rw [hx, Nat.zero_mod, Nat.mod_self]
    · rw [Nat.mod_eq_of_lt (by omega)]
  calc ((if h + 1 ≥ c then 0 else h + 1) + i) % c
      = ((if h + 1 ≥ c then 0 else h + 1) % c + i % c) % c := by rw [Nat.add_mod]
    _ = ((h + 1) % c + i % c) % c := by rw [hmm]
    _ = ((h + 1) + i) % c := by rw [← Nat.add_mod]
    _ = (h + (i + 1)) % c := by congr 1; omega

theorem pop_spec' (st : MQ) (hInv : st.Inv) (hne : st.len ≠ 0) :
    ∃ st', st.pop = (some (st.queue st.head), st') ∧ st'.Inv ∧
      st'.len = st.len - 1 ∧
      st.toList = st.queue st.head :: st'.toList ∧
      st'.cap = st.cap ∧ st'.tail = st.tail ∧ st'.queue = st.queue ∧
      st'.lock_session = st.lock_session ∧ st'.in_global = 0 ∧
      st'.m_release = st.m_release := by
  obtain ⟨hc, hh, ht⟩ := hInv
  have hInv' : st.Inv := ⟨hc, hh, ht⟩
  have hht : st.head ≠ st.tail := fun hx => hne ((len_zero_iff st hInv').mpr hx)
  have hlt1 : (if st.head + 1 ≥ st.cap then 0 else st.head + 1) < st.cap := by
    split <;> omega
  have hlen' : (({ st with head := (if st.head + 1 ≥ st.cap then 0 else st.head + 1), in_global := 0 } : MQ)).len = st.len - 1 :=
    stepP_len st.cap st.head st.tail st.len hh ht (len_eq st hInv') hne
  refine ⟨({ st with head := (if st.head + 1 ≥ st.cap then 0 else st.head + 1), in_global := 0 } : MQ), ?_, ⟨hc, hlt1, ht⟩, hlen', ?_, rfl, rfl, rfl, rfl, rfl, rfl⟩
  · unfold MQ.pop
    rw [if_pos hht]
  · unfold MQ.toList
    have hL1 : st.len = (st.len - 1) + 1 := by omega
    rw [hlen', hL1, List.range_succ_eq_map, List.map_cons, List.map_map]
    congr 1
    · rw [Nat.add_zero, Nat.mod_eq_of_lt hh]
    · apply List.map_congr_left
      intro i hi
      show st.queue ((st.head + (i + 1)) % st.cap)
        = st.queue (((if st.head + 1 ≥ st.cap then 0 else st.head + 1) + i) % st.cap)
      rw [head_step_mod st.cap st.head hh i]

theorem popAll_toList (n : Nat) : ∀ st : MQ, st.Inv → st.len ≤ n →
    MQ.popAll n st = st.toList := by
  induction n with
  | zero =>
    intro st hInv hle
    have h0 : st.len = 0 := by omega
    show ([] : List Message) = st.toList
    unfold MQ.toList
    rw [h0]
    rfl
  | succ n ih =>
    intro st hInv hle
    by_cases h0 : st.len = 0
    · have hht : st.head = st.tail := (len_zero_iff st hInv).mp h0
      have hpop : st.pop = (none, st) := by
        unfold MQ.pop
        rw [if_neg (by omega)]
      show (match st.pop with
        | (none, _) => []
        | (some m, st') => m :: MQ.popAll n st') = st.toList
      rw [hpop]
      unfold MQ.toList
      rw [h0]
      rfl
    · obtain ⟨st', hpop, hInv', hlen', hcons, _⟩ := pop_spec' st hInv h0
      show (match st.pop with
        | (none, _) => []
        | (some m, st') => m :: MQ.popAll n st') = st.toList
      rw [hpop]
      show st.queue st.head :: MQ.popAll n st' = st.toList
      rw [ih st' hInv' (by omega)]
      exact hcons.symm

theorem pushList_spec (ms : List Message) : ∀ st : MQ, st.Inv → st.lock_session = 0 →
    st.in_global ≠ 0 →
    ∃ st', MQ.pushList ms st = some (st', 0) ∧ st'.Inv ∧
      st'.toList = st.toList ++ ms ∧ st'.len = st.len + ms.length ∧
      st'.lock_session = 0 ∧ st'.in_global = st.in_global ∧
      (st.len + ms.length < st.cap → st'.cap = st.cap) := by
  induction ms with
  | nil =>
    intro st hInv hl hg
    exact ⟨st, rfl, hInv, by simp, by simp, hl, rfl, fun _ => rfl⟩
  | cons m ms ih =>
    intro st hInv hl hg
    obtain ⟨st1, b, hpush, hInv1, hto1, hlen1, hl1, hg1, hb, hcap1, _⟩ :=
      push_spec st m 0 hInv hl
    have hb' : b = false := by
      cases b
      · rfl
      · exact absurd (hb.mp rfl) hg
    have hg1' : st1.in_global = st.in_global := by
      rw [hg1, if_neg hg]
    obtain ⟨st2, hpl, hInv2, hto2, hlen2, hl2, hg2, hcap2⟩ :=
      ih st1 hInv1 hl1 (by rw [hg1']; exact hg)
    refine ⟨st2, ?_, hInv2, ?_, ?_, hl2, by rw [hg2, hg1'], ?_⟩
    · show (match st.push m 0 with
        | none => none
        | some (st', b) =>
          match MQ.pushList ms st' with
          | none => none
          | some (st'', n) => some (st'', (if b then 1 else 0) + n)) = some (st2, 0)
      simp only [hpush, hb', hpl]
      rfl
    · rw [hto2, hto1]
      simp
    · rw [hlen2, hlen1, List.length_cons]
      omega
    · intro hlt
      rw [List.length_cons] at hlt
      have hne1 : st.len + 1 ≠ st.cap := by omega
      have hcapA : st1.cap = st.cap := by
        rw [hcap1, if_neg hne1]
      rw [← hcapA]
      apply hcap2
      rw [hlen1, hcapA]
      omega

theorem len_mkCap (c hdl : Nat) : (MQ.mkCap c hdl).len = 0 := by
  show (0 + c - 0) % c = 0
  have h1 : 0 + c - 0 = c := by omega
  rw [h1, Nat.mod_self]

theorem toList_mkCap (c hdl : Nat) : (MQ.mkCap c hdl).toList = [] := by
  unfold MQ.toList
  rw [len_mkCap]
  rfl

theorem inv_mkCap (c hdl : Nat) (hc : 0 < c) : (MQ.mkCap c hdl).Inv :=
  ⟨hc, hc, hc⟩

theorem run_yields (ms : List Message) (c hdl : Nat) (hc : 0 < c) :
    runPushPop ms c hdl = some ms := by
  obtain ⟨st', hpl, hInv', hto, hlen, _⟩ :=
    pushList_spec ms (MQ.mkCap c hdl) (inv_mkCap c hdl hc) rfl
      (by simp [MQ.mkCap, MQ_IN_GLOBAL])
  unfold runPushPop
  rw [hpl]
  simp only [Option.map_some']
  congr 1
  rw [popAll_toList ms.length st' hInv' (by rw [hlen, len_mkCap]; omega), hto, toList_mkCap]
  rfl

theorem cap_pres (ms : List Message) (c hdl : Nat) (hcgt : ms.length < c) :
    (MQ.pushList ms (MQ.mkCap c hdl)).map (fun p => p.1.cap) = some c := by
  obtain ⟨st', hpl, _, _, _, _, _, hcap⟩ :=
    pushList_spec ms (MQ.mkCap c hdl) (inv_mkCap c hdl (by omega)) rfl
      (by simp [MQ.mkCap, MQ_IN_GLOBAL])
  rw [hpl]
  simp only [Option.map_some']
  have h2 : st'.cap = (MQ.mkCap c hdl).cap := by
    apply hcap
    rw [len_mkCap]
    show 0 + ms.length < c
    omega
  rw [h2]
  rfl

/-- Claim C6: `MQ::expand` allocates a buffer of twice the capacity,
copies the messages starting from the current logical head into
positions `0..cap-1`, resets head to 0 and tail to the old capacity
(first conjunct); and expansion preserves message order and count
exactly: pushing any sequence of messages into a fresh mailbox of the
source's default capacity (64, where long sequences trigger doubling)
and popping them all yields the original sequence, the same list that
results from a mailbox whose capacity exceeds the sequence length — in
which case the capacity, and hence the buffer, is never changed. -/
theorem C6_expansion_refinement :
    (∀ st : MQ, (st.expand).cap = st.cap * 2 ∧ (st.expand).head = 0 ∧
      (st.expand).tail = st.cap ∧
      ∀ i, i < st.cap → (st.expand).queue i = st.queue ((st.head + i) % st.cap)) ∧
    (∀ (ms : List Message) (hdl : Nat),
      runPushPop ms DEFAULT_QUEUE_SIZE hdl = some ms ∧
      ∀ c : Nat, ms.length < c →
        runPushPop ms c hdl = some ms ∧
        (MQ.pushList ms (MQ.mkCap c hdl)).map (fun p => p.1.cap) = some c) := by
  constructor
  · intro st
    refine ⟨rfl, rfl, rfl, ?_⟩
    intro i hi
    show (if i < st.cap then st.queue ((st.head + i) % st.cap) else default)
      = st.queue ((st.head + i) % st.cap)
    rw [if_pos hi]
  · intro ms hdl
    refine ⟨run_yields ms DEFAULT_QUEUE_SIZE hdl (by decide), ?_⟩
    intro c hcgt
    exact ⟨run_yields ms c hdl (by omega), cap_pres ms c hdl hcgt⟩

/-- Claim C6 witness: concrete run on a three-message sequence at
capacity 5 (hypothesis `3 < 5` discharged) and at the default
capacity. -/
theorem C6_witness :
    ([msgA, msgB2, msgC3m].length < 5 ∧ runPushPop [msgA, msgB2, msgC3m] 5 1 = some [msgA, msgB2, msgC3m]) ∧
    runPushPop [msgA, msgB2, msgC3m] DEFAULT_QUEUE_SIZE 1 = some [msgA, msgB2, msgC3m] :=
  ⟨⟨by decide, ((C6_expansion_refinement.2 [msgA, msgB2, msgC3m] 1).2 5 (by decide)).1⟩,
   (C6_expansion_refinement.2 [msgA, msgB2, msgC3m] 1).1⟩

/-- Claim C10: a newly constructed mailbox starts with membership
already QUEUED (`MQ_IN_GLOBAL`), so pushing any sequence of messages
into a fresh mailbox (before any pop) appends all of them in order
while invoking `GlobalMQ::push` zero times — the mailbox is never
enqueued into the ready queue by those pushes, and its membership is
still QUEUED afterwards. -/
theorem C10_fresh_push_not_enqueued (ms : List Message) (hdl : Nat) :
    (MQ.mk' hdl).in_global = MQ_IN_GLOBAL ∧
    ∃ st', MQ.pushList ms (MQ.mk' hdl) = some (st', 0) ∧
      st'.toList = ms ∧ st'.in_global = MQ_IN_GLOBAL := by
  refine ⟨rfl, ?_⟩
  obtain ⟨st', hpl, _, hto, _, _, hg, _⟩ :=
    pushList_spec ms (MQ.mk' hdl)
      (inv_mkCap DEFAULT_QUEUE_SIZE hdl (by decide)) rfl
      (by simp [MQ.mk', MQ.mkCap, MQ_IN_GLOBAL])
  refine ⟨st', hpl, ?_, by rw [hg]; rfl⟩
  rw [hto]
  show (MQ.mkCap DEFAULT_QUEUE_SIZE hdl).toList ++ ms = ms
  rw [toList_mkCap]
  rfl

/-- Claim C1, amended: the "QUEUED iff present in ReadyQueue" invariant
is not established at construction — a fresh mailbox has membership
`MQ_IN_GLOBAL` while the fresh ready queue holds no reference at all
(so presence is, vacuously, at most once) — but the operations
`MQ::push` and `MQ::pushglobal` do set membership to QUEUED whenever
they push a reference of the mailbox into the ready queue. -/
theorem C1_amended :
    ((∀ hdl : Nat, (MQ.mk' hdl).in_global = MQ_IN_GLOBAL) ∧
     (∀ r : Nat, GlobalMQ.refCount GlobalMQ.init r = 0)) ∧
    (∀ (st : MQ) (m : Message) (g : Int) (st' : MQ),
        st.push m g = some (st', true) → st'.in_global = MQ_IN_GLOBAL) ∧
    (∀ (st st' : MQ), st.pushglobal = some (st', true) → st'.in_global = MQ_IN_GLOBAL) := by
  refine ⟨⟨fun hdl => rfl, fun r => rfl⟩, ?_, ?_⟩
  · intro st m g st' h
    unfold MQ.push at h
    split at h
    · unfold MQ.pushhead MQ.expand at h
      dsimp only at h
      simp only [apply_ite MQ.in_global, ite_self] at h
      split at h
      · simp only [Option.some.injEq, Prod.mk.injEq] at h
        rw [← h.1]
      · split at h
        · simp at h
        · simp at h
    · unfold MQ.expand at h
      dsimp only at h
      simp only [apply_ite MQ.lock_session, apply_ite MQ.in_global, ite_self] at h
      split at h
      · simp only [Option.some.injEq, Prod.mk.injEq] at h
        rw [← h.1]
      · simp at h
  · intro st st' h
    unfold MQ.pushglobal at h
    split at h
    · simp at h
    · split at h
      · dsimp only at h
        split at h
        · simp only [Option.some.injEq, Prod.mk.injEq] at h
          rw [← h.1]
        · simp at h
      · dsimp only at h
        split at h
        · simp only [Option.some.injEq, Prod.mk.injEq] at h
          rw [← h.1]
        · simp at h

/-- Claim C1 witness: the pushglobal direction applied to a fresh
mailbox, whose pushglobal does push and ends QUEUED. -/
theorem C1_amended_witness :
    ({ MQ.mk' 3 with in_global := MQ_IN_GLOBAL } : MQ).in_global = MQ_IN_GLOBAL :=
  C1_amended.2.2 (MQ.mk' 3) ({ MQ.mk' 3 with in_global := MQ_IN_GLOBAL } : MQ) rfl

end Fibernet
